import Mathlib

/-!
Verification of the polling-place simulation (src/simulate.py): voters,
the bank of voting booths, the precinct arrival generator and simulation
engine, and the two parameter-search routines. Python floats are embedded
as rationals; the assertions of the Python code become an explicit error
type; the seeded pseudo-random stream that util.py would provide is
abstracted as a function from draw positions to rationals.
-/

/-- The assertion failures the Python code can raise (each constructor
stands for one assert in src/simulate.py). -/
inductive SimError where
  | allBoothsInUse
  | startTimeMustBeSet
  | noBoothsInUse
  | numTrialsMustBePositive
deriving DecidableEq, Repr

/-- `Voter` from src/simulate.py: arrival time and voting duration in
minutes, optional start and departure times, an impatience flag and a
voted flag, in the order the constructor assigns them. -/
structure Voter where
  arrival_time : ℚ
  voting_duration : ℚ
  start_time : Option ℚ
  departure_time : Option ℚ
  has_voted : Bool
  is_impatient : Bool
deriving DecidableEq, Repr

/-- `Voter.set_start_time`. -/
def Voter.set_start_time (v : Voter) (t : ℚ) : Voter :=
  { v with start_time := some t }

/-- `Voter.set_departure_time`. -/
def Voter.set_departure_time (v : Voter) (t : ℚ) : Voter :=
  { v with departure_time := some t }

/-- `Voter.set_vote`. -/
def Voter.set_vote (v : Voter) (b : Bool) : Voter :=
  { v with has_voted := b }

/-- `VotingBooths`: the capacity together with the contents of the
priority queue of occupied booths, each entry keyed by the departure
time of the occupying voter. -/
structure VotingBooths where
  num_booths : ℕ
  q : List (ℚ × Voter)
deriving DecidableEq, Repr

/-- `VotingBooths.is_booth_available`: is the occupied count below the
capacity. -/
def VotingBooths.is_booth_available (vb : VotingBooths) : Bool :=
  decide (vb.q.length < vb.num_booths)

/-- `VotingBooths.is_some_booth_occupied`: is at least one booth
occupied. -/
def VotingBooths.is_some_booth_occupied (vb : VotingBooths) : Bool :=
  decide (0 < vb.q.length)

/-- Minimum departure-time key of the queue contents, `none` when the
queue is empty. -/
def qMinKey : List (ℚ × Voter) → Option ℚ
  | [] => none
  | (d, _) :: rest =>
    match qMinKey rest with
    | none => some d
    | some m => some (min d m)

/-- Remove one entry holding the minimum departure-time key, returning it
and the remaining entries; `none` when the queue is empty. -/
def popMinQ : List (ℚ × Voter) → Option ((ℚ × Voter) × List (ℚ × Voter))
  | [] => none
  | (d, v) :: rest =>
    match popMinQ rest with
    | none => some ((d, v), [])
    | some ((d2, v2), rest2) =>
      if d ≤ d2 then some ((d, v), rest)
      else some ((d2, v2), (d, v) :: rest2)

/-- `VotingBooths.enter_booth`: assert availability, then assert the
truthiness of the start time (the Python `assert v.start_time` fails both
when the start time is unset and when it equals 0), then store the voter
keyed by start time plus voting duration. -/
def VotingBooths.enter_booth (vb : VotingBooths) (v : Voter) :
    Except SimError VotingBooths :=
  if vb.is_booth_available then
    match v.start_time with
    | none => .error .startTimeMustBeSet
    | some s =>
      if s = 0 then .error .startTimeMustBeSet
      else .ok { vb with q := (s + v.voting_duration, v) :: vb.q }
  else .error .allBoothsInUse

/-- `VotingBooths.time_next_free`: assert that some booth is occupied and
return the minimum departure time without removing it. -/
def VotingBooths.time_next_free (vb : VotingBooths) : Except SimError ℚ :=
  match qMinKey vb.q with
  | none => .error .noBoothsInUse
  | some m => .ok m

/-- `VotingBooths.exit_booth`: assert that some booth is occupied, remove
the entry with the lowest departure time and return the voter together
with that departure time. -/
def VotingBooths.exit_booth (vb : VotingBooths) :
    Except SimError ((Voter × ℚ) × VotingBooths) :=
  match popMinQ vb.q with
  | none => .error .noBoothsInUse
  | some ((d, v), rest) => .ok ((v, d), { vb with q := rest })

/-- `Precinct`: the immutable configuration record. -/
structure Precinct where
  name : String
  hours_open : ℚ
  num_voters : ℕ
  arrival_rate : ℚ
  voting_duration_rate : ℚ
  impatience_prob : ℚ
deriving DecidableEq, Repr

/-- Modelled from the spec: `util.gen_voter_parameters` (util.py is not
part of src/) draws, in this fixed order, an inter-arrival gap
(exponential with the arrival rate), a voting duration (exponential with
the duration rate) and an impatience flag (Bernoulli with probability
`impatience_prob`). The seeded stream is abstracted as a function from
draw positions to rationals; the two exponential draws are represented by
the stream values at the first two positions and the Bernoulli flag by
comparing the value at the third position with `impatience_prob`. The
returned number is the stream position after the three draws. -/
def gen_voter_parameters (stream : ℕ → ℚ) (impatience_prob : ℚ) (pos : ℕ) :
    (ℚ × ℚ × Bool) × ℕ :=
  ((stream pos, stream (pos + 1), decide (stream (pos + 2) < impatience_prob)), pos + 3)

/-- Loop body of `Precinct.__generate_voter_list__`: at most `n` further
candidates, drawing from `stream` starting at position `pos`, with the
running arrival time `cur`; a candidate whose cumulative arrival time
passes `close` is discarded and generation stops. -/
def genLoop (impatience_prob close : ℚ) (stream : ℕ → ℚ) :
    ℕ → ℕ → ℚ → List Voter
  | 0, _, _ => []
  | n + 1, pos, cur =>
    let res := gen_voter_parameters stream impatience_prob pos
    let cur2 := cur + res.1.1
    if cur2 > close then []
    else
      ⟨cur2, res.1.2.1, none, none, false, res.1.2.2⟩ ::
        genLoop impatience_prob close stream n res.2 cur2

/-- `Precinct.__generate_voter_list__`: up to `num_voters` voters, closing
time `hours_open * 60`, starting at stream position 0 and time 0. -/
def generateVoterList (cfg : Precinct) (stream : ℕ → ℚ) : List Voter :=
  genLoop cfg.impatience_prob (cfg.hours_open * 60) stream cfg.num_voters 0 0

/-- One iteration of the loop body of `Precinct.simulate`: decide
admission, waiting or rejection for a single arriving voter, returning
the processed voter and the updated booths. -/
def simStep (vb : VotingBooths) (impatience_threshold : ℚ) (voter : Voter) :
    Except SimError (Voter × VotingBooths) :=
  if vb.is_booth_available then
    let v1 := voter.set_start_time voter.arrival_time
    let v2 := v1.set_departure_time (voter.arrival_time + voter.voting_duration)
    match vb.enter_booth v2 with
    | .error e => .error e
    | .ok vb2 => .ok (v2.set_vote true, vb2)
  else
    match vb.time_next_free with
    | .error e => .error e
    | .ok next_avail =>
      if voter.arrival_time > next_avail then
        match vb.exit_booth with
        | .error e => .error e
        | .ok (_, vb1) =>
          let v1 := voter.set_start_time voter.arrival_time
          let v2 := v1.set_departure_time (voter.arrival_time + voter.voting_duration)
          match vb1.enter_booth v2 with
          | .error e => .error e
          | .ok vb2 => .ok (v2.set_vote true, vb2)
      else
        let wait_time := next_avail - voter.arrival_time
        if wait_time > impatience_threshold ∧ voter.is_impatient = true then
          .ok (voter, vb)
        else
          match vb.exit_booth with
          | .error e => .error e
          | .ok (_, vb1) =>
            let v1 := voter.set_start_time next_avail
            let v2 := v1.set_departure_time (next_avail + voter.voting_duration)
            match vb1.enter_booth v2 with
            | .error e => .error e
            | .ok vb2 => .ok (v2.set_vote true, vb2)

/-- The loop of `Precinct.simulate`: process the arrivals in order,
appending each processed voter (voted or not) to the outcome list. -/
def simLoop (impatience_threshold : ℚ) :
    VotingBooths → List Voter → Except SimError (List Voter)
  | _, [] => .ok []
  | vb, voter :: rest =>
    match simStep vb impatience_threshold voter with
    | .error e => .error e
    | .ok (v2, vb2) =>
      match simLoop impatience_threshold vb2 rest with
      | .error e => .error e
      | .ok outs => .ok (v2 :: outs)

/-- `Precinct.simulate`: generate the arrival list from the abstract
random stream of the seed, then run every arrival through the admission
decision, starting from a fresh pool of `num_booths` empty booths. -/
def simulate (stream : ℕ → ℚ) (cfg : Precinct) (num_booths : ℕ)
    (impatience_threshold : ℚ) : Except SimError (List Voter) :=
  simLoop impatience_threshold ⟨num_booths, []⟩ (generateVoterList cfg stream)

/-- Did every voter in the outcome list vote (the all-voted check of the
search loops). -/
def allVoted (l : List Voter) : Bool :=
  l.all (fun v => v.has_voted)

/-- Number of voters in an outcome list with `has_voted` true. -/
def countVoted (l : List Voter) : ℕ :=
  (l.filter (fun v => v.has_voted)).length

/-- Voted count of a simulation result, `none` when the run raised. -/
def countVotedOk (r : Except SimError (List Voter)) : Option ℕ :=
  match r with
  | .error _ => none
  | .ok l => some (countVoted l)

/-- The identity of a voter: the generated fields that the engine never
changes. -/
def voterKey (v : Voter) : ℚ × ℚ × Bool :=
  (v.arrival_time, v.voting_duration, v.is_impatient)

/-- Inner while-loop of `find_impatience_threshold` for one trial:
starting from threshold -9, add 10 and re-run the full simulation on a
fresh booth pool until every voter voted; `fuel` bounds the unbounded
Python loop, `none` standing for not converging within `fuel` runs. -/
def trialThreshold (stream : ℕ → ℚ) (cfg : Precinct) (num_booths : ℕ) :
    ℕ → ℚ → Except SimError (Option ℚ)
  | 0, _ => .ok none
  | fuel + 1, t =>
    let t2 := t + 10
    match simulate stream cfg num_booths t2 with
    | .error e => .error e
    | .ok outs =>
      if allVoted outs then .ok (some t2)
      else trialThreshold stream cfg num_booths fuel t2

/-- Inner while-loop of `find_voting_booths_needed` for one trial:
starting from 0 booths, add one booth and re-run the full simulation on a
fresh pool until every voter voted. -/
def trialBooths (stream : ℕ → ℚ) (cfg : Precinct) (impatience_threshold : ℚ) :
    ℕ → ℕ → Except SimError (Option ℕ)
  | 0, _ => .ok none
  | fuel + 1, nb =>
    let nb2 := nb + 1
    match simulate stream cfg nb2 impatience_threshold with
    | .error e => .error e
    | .ok outs =>
      if allVoted outs then .ok (some nb2)
      else trialBooths stream cfg impatience_threshold fuel nb2

/-- Run the per-trial computation for each listed trial index, collecting
the converged values in order; an exception propagates, and a trial that
does not converge makes the whole search diverge (`none`). -/
def seqTrials {α : Type} (g : ℕ → Except SimError (Option α)) :
    List ℕ → Except SimError (Option (List α))
  | [] => .ok (some [])
  | i :: rest =>
    match g i with
    | .error e => .error e
    | .ok none => .ok none
    | .ok (some x) =>
      match seqTrials g rest with
      | .error e => .error e
      | .ok none => .ok none
      | .ok (some xs) => .ok (some (x :: xs))

/-- `find_impatience_threshold`: assert a positive trial count, run
`num_trials` trials where trial `i` uses the random stream of seed
`seed + i`, sort the converged thresholds and return the sorted element
at index `num_trials / 2`. -/
def findImpatienceThreshold (fuel : ℕ) (streams : ℤ → ℕ → ℚ) (seed : ℤ)
    (cfg : Precinct) (num_booths : ℕ) (num_trials : ℕ) :
    Except SimError (Option ℚ) :=
  if num_trials = 0 then .error .numTrialsMustBePositive
  else
    match seqTrials
        (fun i => trialThreshold (streams (seed + (i : ℤ))) cfg num_booths fuel (-9))
        (List.range num_trials) with
    | .error e => .error e
    | .ok none => .ok none
    | .ok (some l) =>
      .ok (some ((List.insertionSort (· ≤ ·) l).getD (l.length / 2) 0))

/-- `find_voting_booths_needed`: the same outer structure, converging on
the booth count with the impatience threshold held fixed. -/
def findVotingBoothsNeeded (fuel : ℕ) (streams : ℤ → ℕ → ℚ) (seed : ℤ)
    (cfg : Precinct) (impatience_threshold : ℚ) (num_trials : ℕ) :
    Except SimError (Option ℕ) :=
  if num_trials = 0 then .error .numTrialsMustBePositive
  else
    match seqTrials
        (fun i => trialBooths (streams (seed + (i : ℤ))) cfg impatience_threshold fuel 0)
        (List.range num_trials) with
    | .error e => .error e
    | .ok none => .ok none
    | .ok (some l) =>
      .ok (some ((List.insertionSort (· ≤ ·) l).getD (l.length / 2) 0))

/-- Sum of the first `k` gap draws, taken from stream positions
`pos, pos + 3, pos + 6, ...`. -/
def offSum (stream : ℕ → ℚ) (pos : ℕ) : ℕ → ℚ
  | 0 => 0
  | k + 1 => offSum stream pos k + stream (pos + 3 * k)

/-- Concrete draw stream: one voter, gap 1, duration 2, patient. -/
def sW : ℕ → ℚ := fun n => ([1, 2, 5] : List ℚ).getD n 0

/-- Concrete configuration: one voter, one hour open. -/
def cfgW : Precinct := ⟨"tiny", 1, 1, 1, 1, 1⟩

/-- The outcome voter of the run of `sW` and `cfgW` with one booth. -/
def vW : Voter := ⟨1, 2, some 1, some 3, true, false⟩

/-- The outcome list of the run of `sW` and `cfgW` with one booth. -/
def outW : List Voter := [vW]

/-- The stream family assigning `sW` to every seed. -/
def sFam : ℤ → ℕ → ℚ := fun _ => sW

/-- Concrete draw stream refuting threshold monotonicity: arrivals at
1, 2, 12 and 14, durations 10, 1000, 1 and 1, everyone impatient. -/
def s8 : ℕ → ℚ := fun n => ([1, 10, 0, 1, 1000, 0, 10, 1, 0, 2, 1, 0] : List ℚ).getD n 0

/-- Configuration for the monotonicity counterexample: four voters. -/
def cfg8 : Precinct := ⟨"mono", 1, 4, 1, 1, 1⟩

/-- Draw stream of the concrete spec scenario: arrivals at 0 and 5,
durations 10 and 4, the second voter impatient. -/
def c1s : ℕ → ℚ := fun n => ([0, 10, 2, 5, 4, 0] : List ℚ).getD n 0

/-- Configuration of the concrete spec scenario: two voters. -/
def c1cfg : Precinct := ⟨"scenario", 1, 2, 1, 1, 1⟩

/-- Draw stream whose first gap is 0: the first voter arrives at time 0. -/
def s9 : ℕ → ℚ := fun _ => 0

/-- Configuration for the arrival-at-zero run: one voter. -/
def cfg9 : Precinct := ⟨"zero", 1, 1, 1, 1, 1⟩

/-- A voter admitted at time 0: start time assigned but equal to 0. -/
def vZero : Voter := ⟨0, 10, some 0, none, false, false⟩

/-- An occupant departing at time 2. -/
def wOcc1 : Voter := ⟨0, 2, some 0, some 2, false, false⟩

/-- An occupant departing at time 3. -/
def wOcc2 : Voter := ⟨1, 2, some 1, some 3, false, false⟩

/-- A full two-booth pool with two stale occupants (both departure times
lie before the next arrival at time 5). -/
def vbStale : VotingBooths := ⟨2, [(2, wOcc1), (3, wOcc2)]⟩

/-- The arrival at time 5 that finds both occupants of `vbStale` stale. -/
def vArr : Voter := ⟨5, 1, none, none, false, false⟩

/-- A full one-booth pool whose occupant departs at time 10. -/
def vbFull : VotingBooths := ⟨1, [(10, wOcc1)]⟩

/-- An impatient arrival at time 2 facing an 8-minute wait at `vbFull`. -/
def vImp : Voter := ⟨2, 3, none, none, false, true⟩

/-! Generator lemmas -/

theorem offSum_shift (s : ℕ → ℚ) (pos : ℕ) :
    ∀ k, offSum s pos (k + 1) = s pos + offSum s (pos + 3) k := by
  intro k
  induction k with
  | zero => simp [offSum]
  | succ k ih =>
    have harg : pos + 3 * (k + 1) = (pos + 3) + 3 * k := by ring
    calc offSum s pos (k + 2)
        = offSum s pos (k + 1) + s (pos + 3 * (k + 1)) := rfl
      _ = s pos + offSum s (pos + 3) k + s ((pos + 3) + 3 * k) := by rw [ih, harg]
      _ = s pos + offSum s (pos + 3) (k + 1) := by rw [add_assoc]; rfl

theorem genLoop_spec (p c : ℚ) (s : ℕ → ℚ) :
    ∀ (n pos : ℕ) (cur : ℚ),
      (genLoop p c s n pos cur).length ≤ n ∧
      (∀ i, i < (genLoop p c s n pos cur).length →
        (genLoop p c s n pos cur).get? i =
          some ⟨cur + offSum s pos (i + 1), s (pos + 3 * i + 1), none, none, false,
            decide (s (pos + 3 * i + 2) < p)⟩ ∧
        cur + offSum s pos (i + 1) ≤ c) ∧
      ((genLoop p c s n pos cur).length < n →
        c < cur + offSum s pos ((genLoop p c s n pos cur).length + 1)) := by
  intro n
  induction n with
  | zero =>
    intro pos cur
    refine ⟨Nat.le_refl 0, ?_, ?_⟩
    · intro i h; simp [genLoop] at h
    · intro h; simp [genLoop] at h
  | succ n ih =>
    intro pos cur
    by_cases hc : cur + s pos > c
    · have hg : genLoop p c s (n + 1) pos cur = [] := by
        simp only [genLoop, gen_voter_parameters]
        rw [if_pos hc]
      refine ⟨?_, ?_, ?_⟩
      · rw [hg]; exact Nat.zero_le _
      · intro i h; rw [hg] at h; simp at h
      · intro _
        rw [hg]
        simpa [offSum] using hc
    · have hg : genLoop p c s (n + 1) pos cur =
          ⟨cur + s pos, s (pos + 1), none, none, false, decide (s (pos + 2) < p)⟩ ::
            genLoop p c s n (pos + 3) (cur + s pos) := by
        simp only [genLoop, gen_voter_parameters]
        rw [if_neg hc]
      obtain ⟨ihlen, ihget, ihstop⟩ := ih (pos + 3) (cur + s pos)
      refine ⟨?_, ?_, ?_⟩
      · rw [hg]; simpa using Nat.succ_le_succ ihlen
      · intro i h
        rw [hg] at h ⊢
        match i with
        | 0 =>
          constructor
          · simp [offSum]
          · simpa [offSum] using le_of_not_lt hc
        | Nat.succ j =>
          have hj : j < (genLoop p c s n (pos + 3) (cur + s pos)).length := by
            simpa using Nat.lt_of_succ_lt_succ h
          obtain ⟨hget, hbound⟩ := ihget j hj
          have hshift : cur + offSum s pos (j + 2) =
              cur + s pos + offSum s (pos + 3) (j + 1) := by
            rw [offSum_shift s pos (j + 1), add_assoc]
          have harg1 : (pos + 3) + 3 * j + 1 = pos + 3 * (j + 1) + 1 := by ring
          have harg2 : (pos + 3) + 3 * j + 2 = pos + 3 * (j + 1) + 2 := by ring
          constructor
          · show (genLoop p c s n (pos + 3) (cur + s pos)).get? j = _
            rw [hget, ← harg1, ← harg2, hshift]
          · rw [hshift]; exact hbound
      · intro hlen
        rw [hg] at hlen ⊢
        have hlt : (genLoop p c s n (pos + 3) (cur + s pos)).length < n := by
          simpa using Nat.lt_of_succ_lt_succ hlen
        have := ihstop hlt
        have hshift : cur + offSum s pos
            ((genLoop p c s n (pos + 3) (cur + s pos)).length + 2) =
            cur + s pos + offSum s (pos + 3)
              ((genLoop p c s n (pos + 3) (cur + s pos)).length + 1) := by
          rw [offSum_shift s pos _, add_assoc]
        simpa [hshift] using this

theorem genLoop_fresh (p c : ℚ) (s : ℕ → ℚ) :
    ∀ (n pos : ℕ) (cur : ℚ) (v : Voter), v ∈ genLoop p c s n pos cur →
      v.start_time = none ∧ v.departure_time = none ∧ v.has_voted = false := by
  intro n
  induction n with
  | zero => intro pos cur v h; simp [genLoop] at h
  | succ n ih =>
    intro pos cur v h
    simp only [genLoop, gen_voter_parameters] at h
    by_cases hc : cur + s pos > c
    · rw [if_pos hc] at h; simp at h
    · rw [if_neg hc] at h
      rcases List.mem_cons.mp h with h0 | h1
      · simp [h0]
      · exact ih _ _ v h1

/-- C6: the arrival generator produces arrival times that are the running
sums of the drawn inter-arrival gaps; per candidate the three values are
drawn in the fixed order gap (position 3i), voting duration (position
3i+1), impatience flag (position 3i+2); generation stops once
`num_voters` voters have been produced or the cumulative time of the next
candidate passes `hours_open * 60` minutes, and that over-time candidate
is discarded. -/
theorem c6_generator_running_sums :
    ∀ (cfg : Precinct) (stream : ℕ → ℚ),
      (generateVoterList cfg stream).length ≤ cfg.num_voters ∧
      (∀ i, i < (generateVoterList cfg stream).length →
        (generateVoterList cfg stream).get? i =
          some ⟨offSum stream 0 (i + 1), stream (3 * i + 1), none, none, false,
            decide (stream (3 * i + 2) < cfg.impatience_prob)⟩ ∧
        offSum stream 0 (i + 1) ≤ cfg.hours_open * 60) ∧
      ((generateVoterList cfg stream).length < cfg.num_voters →
        cfg.hours_open * 60 < offSum stream 0 ((generateVoterList cfg stream).length + 1)) := by
  intro cfg stream
  obtain ⟨h1, h2, h3⟩ :=
    genLoop_spec cfg.impatience_prob (cfg.hours_open * 60) stream cfg.num_voters 0 0
  refine ⟨h1, ?_, ?_⟩
  · intro i hi
    obtain ⟨hg, hb⟩ := h2 i hi
    constructor
    · simpa using hg
    · simpa using hb
  · intro hlen
    simpa using h3 hlen

/-- Witness for C6 at the concrete one-voter configuration. -/
theorem c6_generator_running_sums_witness :
    (generateVoterList cfgW sW).length ≤ cfgW.num_voters ∧
    ((generateVoterList cfgW sW).get? 0 =
      some ⟨offSum sW 0 1, sW 1, none, none, false,
        decide (sW 2 < cfgW.impatience_prob)⟩ ∧
     offSum sW 0 1 ≤ cfgW.hours_open * 60) :=
  ⟨(c6_generator_running_sums cfgW sW).1,
   (c6_generator_running_sums cfgW sW).2.1 0
     (by norm_num [generateVoterList, genLoop, gen_voter_parameters, sW, cfgW])⟩

/-! Booth-pool lemmas -/

theorem qMinKey_eq_none : ∀ l : List (ℚ × Voter), qMinKey l = none → l = [] := by
  intro l h
  cases l with
  | nil => rfl
  | cons b u =>
    obtain ⟨e, w⟩ := b
    simp only [qMinKey] at h
    cases hq : qMinKey u <;> rw [hq] at h <;> simp at h

theorem popMinQ_of_qMinKey :
    ∀ (l : List (ℚ × Voter)) (m : ℚ), qMinKey l = some m →
      ∃ w rest, popMinQ l = some ((m, w), rest) ∧ rest.length + 1 = l.length := by
  intro l
  induction l with
  | nil => intro m h; simp [qMinKey] at h
  | cons a t ih =>
    obtain ⟨d, v⟩ := a
    intro m h
    simp only [qMinKey] at h
    cases ht : qMinKey t with
    | none =>
      rw [ht] at h
      simp only at h
      have hm : m = d := by simpa using h.symm
      have htnil : t = [] := qMinKey_eq_none t ht
      subst htnil hm
      refine ⟨v, [], ?_, ?_⟩
      · simp [popMinQ]
      · simp
    | some mt =>
      rw [ht] at h
      simp only at h
      have hm : m = min d mt := by simpa using h.symm
      obtain ⟨w2, rest2, hpop, hlen⟩ := ih mt ht
      by_cases hd : d ≤ mt
      · refine ⟨v, t, ?_, ?_⟩
        · simp only [popMinQ, hpop]
          rw [if_pos hd, hm, min_eq_left hd]
        · simp
      · refine ⟨w2, (d, v) :: rest2, ?_, ?_⟩
        · simp only [popMinQ, hpop]
          rw [if_neg hd, hm, min_eq_right (le_of_not_le hd)]
        · simpa using hlen

theorem time_next_free_qMinKey (vb : VotingBooths) (m : ℚ)
    (h : vb.time_next_free = .ok m) : qMinKey vb.q = some m := by
  unfold VotingBooths.time_next_free at h
  cases hq : qMinKey vb.q with
  | none => rw [hq] at h; simp at h
  | some m2 =>
    rw [hq] at h
    simp only [Except.ok.injEq] at h
    rw [h]


/-- C3: a voter arriving when no booth is available whose arrival time
lies strictly after the minimum departure time is admitted at its own
arrival time with `has_voted` true, after exactly one occupant, the one
with minimum departure time, leaves the pool; this is the single-eviction
behaviour even when several occupants are already stale. -/
theorem c3_stale_eviction (vb : VotingBooths) (th : ℚ) (v : Voter) (m : ℚ)
    (hb : vb.is_booth_available = false)
    (hcap : vb.q.length ≤ vb.num_booths)
    (htn : vb.time_next_free = .ok m)
    (hm : 0 ≤ m)
    (ha : m < v.arrival_time) :
    ∃ w rest,
      vb.exit_booth = .ok ((w, m), ⟨vb.num_booths, rest⟩) ∧
      rest.length + 1 = vb.q.length ∧
      simStep vb th v = .ok
        ({ v with start_time := some v.arrival_time,
                  departure_time := some (v.arrival_time + v.voting_duration),
                  has_voted := true },
         ⟨vb.num_booths,
           (v.arrival_time + v.voting_duration,
             { v with start_time := some v.arrival_time,
                      departure_time := some (v.arrival_time + v.voting_duration) }) :: rest⟩) := by
  have hq := time_next_free_qMinKey vb m htn
  obtain ⟨w, rest, hpop, hlen⟩ := popMinQ_of_qMinKey vb.q m hq
  have hexit : vb.exit_booth = .ok ((w, m), ⟨vb.num_booths, rest⟩) := by
    simp only [VotingBooths.exit_booth, hpop]
  have hbp : ¬ (vb.q.length < vb.num_booths) := by
    simpa [VotingBooths.is_booth_available] using hb
  have hnb : vb.q.length = vb.num_booths := by omega
  have hrest : rest.length < vb.num_booths := by omega
  have hne : v.arrival_time ≠ 0 := ne_of_gt (lt_of_le_of_lt hm ha)
  refine ⟨w, rest, hexit, hlen, ?_⟩
  simp [simStep, VotingBooths.enter_booth, VotingBooths.is_booth_available,
    Voter.set_start_time, Voter.set_departure_time, Voter.set_vote,
    hbp, htn, hexit, ha, hrest, hne]

/-- Witness for C3: a two-booth pool with two stale occupants; exactly
one is evicted and the arrival at time 5 is admitted. -/
theorem c3_stale_eviction_witness :
    ∃ w rest,
      vbStale.exit_booth = .ok ((w, 2), ⟨vbStale.num_booths, rest⟩) ∧
      rest.length + 1 = vbStale.q.length ∧
      simStep vbStale 0 vArr = .ok
        ({ vArr with start_time := some vArr.arrival_time,
                     departure_time := some (vArr.arrival_time + vArr.voting_duration),
                     has_voted := true },
         ⟨vbStale.num_booths,
           (vArr.arrival_time + vArr.voting_duration,
             { vArr with start_time := some vArr.arrival_time,
                         departure_time := some (vArr.arrival_time + vArr.voting_duration) }) ::
             rest⟩) :=
  c3_stale_eviction vbStale 0 vArr 2 (by decide) (by decide)
    (by norm_num [VotingBooths.time_next_free, qMinKey, vbStale, min_def])
    (by norm_num) (by norm_num [vArr])

/-- C4: an arriving voter facing a wait above the impatience threshold
who is impatient leaves with all fields untouched, and the booth pool is
exactly the same after the step. -/
theorem c4_impatient_walks_away (vb : VotingBooths) (th : ℚ) (v : Voter) (m : ℚ)
    (hb : vb.is_booth_available = false)
    (htn : vb.time_next_free = .ok m)
    (harr : v.arrival_time ≤ m)
    (hwait : th < m - v.arrival_time)
    (himp : v.is_impatient = true)
    (hs : v.start_time = none) (hd : v.departure_time = none)
    (hv : v.has_voted = false) :
    simStep vb th v = .ok (v, vb) := by
  have hbp : ¬ (vb.q.length < vb.num_booths) := by
    simpa [VotingBooths.is_booth_available] using hb
  have hna : ¬ (m < v.arrival_time) := not_lt.mpr harr
  simp [simStep, VotingBooths.is_booth_available, hbp, htn, hna, hwait, himp]

/-- Witness for C4: an impatient arrival at time 2 facing an 8-minute
wait with threshold 3 leaves the one-booth pool untouched. -/
theorem c4_impatient_walks_away_witness :
    simStep vbFull 3 vImp = .ok (vImp, vbFull) :=
  c4_impatient_walks_away vbFull 3 vImp 10 (by decide)
    (by norm_num [VotingBooths.time_next_free, qMinKey, vbFull])
    (by norm_num [vImp]) (by norm_num [vImp]) (by decide) (by decide) (by decide)
    (by decide)

/-! Engine step and loop lemmas -/

theorem simStep_ok_cases (vb : VotingBooths) (th : ℚ) (v v2 : Voter)
    (vb2 : VotingBooths) (h : simStep vb th v = .ok (v2, vb2)) :
    (v2 = v ∧ vb2 = vb) ∨
    ∃ t, v.arrival_time ≤ t ∧
      v2 = ((v.set_start_time t).set_departure_time (t + v.voting_duration)).set_vote true := by
  unfold simStep at h
  by_cases hb : vb.is_booth_available = true
  · simp only [hb, if_true] at h
    cases hen : vb.enter_booth ((v.set_start_time v.arrival_time).set_departure_time
        (v.arrival_time + v.voting_duration)) with
    | error e => simp [hen] at h
    | ok vb3 =>
      simp only [hen, Except.ok.injEq, Prod.mk.injEq] at h
      exact Or.inr ⟨v.arrival_time, le_refl _, h.1.symm⟩
  · simp only [hb, if_false, Bool.false_eq_true] at h
    cases ht : vb.time_next_free with
    | error e => simp [ht] at h
    | ok m =>
      simp only [ht] at h
      by_cases ha : v.arrival_time > m
      · simp only [ha, if_true, gt_iff_lt] at h
        cases hex : vb.exit_booth with
        | error e => simp [hex] at h
        | ok pr =>
          obtain ⟨pr1, vb1⟩ := pr
          simp only [hex] at h
          cases hen : vb1.enter_booth ((v.set_start_time v.arrival_time).set_departure_time
              (v.arrival_time + v.voting_duration)) with
          | error e => simp [hen] at h
          | ok vb3 =>
            simp only [hen, Except.ok.injEq, Prod.mk.injEq] at h
            exact Or.inr ⟨v.arrival_time, le_refl _, h.1.symm⟩
      · simp only [ha, if_false, gt_iff_lt] at h
        by_cases hw : (m - v.arrival_time > th ∧ v.is_impatient = true)
        · simp only [hw, if_true, and_self, gt_iff_lt,
            Except.ok.injEq, Prod.mk.injEq] at h
          rcases h with ⟨h1, h2⟩
          exact Or.inl ⟨h1.symm, h2.symm⟩
        · simp only [hw, if_false] at h
          cases hex : vb.exit_booth with
          | error e => simp [hex] at h
          | ok pr =>
            obtain ⟨pr1, vb1⟩ := pr
            simp only [hex] at h
            cases hen : vb1.enter_booth ((v.set_start_time m).set_departure_time
                (m + v.voting_duration)) with
            | error e => simp [hen] at h
            | ok vb3 =>
              simp only [hen, Except.ok.injEq, Prod.mk.injEq] at h
              exact Or.inr ⟨m, not_lt.mp ha, h.1.symm⟩

theorem simStep_key (vb : VotingBooths) (th : ℚ) (v v2 : Voter) (vb2 : VotingBooths)
    (h : simStep vb th v = .ok (v2, vb2)) : voterKey v2 = voterKey v := by
  rcases simStep_ok_cases vb th v v2 vb2 h with ⟨he, -⟩ | ⟨t, -, he⟩ <;> subst he <;>
    simp [voterKey, Voter.set_start_time, Voter.set_departure_time, Voter.set_vote]

theorem simStep_good (vb : VotingBooths) (th : ℚ) (v v2 : Voter) (vb2 : VotingBooths)
    (h : simStep vb th v = .ok (v2, vb2))
    (hs : v.start_time = none) (hd : v.departure_time = none)
    (hv : v.has_voted = false) :
    (v2.has_voted = true → ∃ s, v2.start_time = some s ∧
      v2.departure_time = some (s + v2.voting_duration) ∧ v2.arrival_time ≤ s) ∧
    (v2.has_voted = false → v2.start_time = none ∧ v2.departure_time = none) := by
  rcases simStep_ok_cases vb th v v2 vb2 h with ⟨he, -⟩ | ⟨t, hle, he⟩
  · subst he
    constructor
    · intro hvt; rw [hv] at hvt; exact Bool.noConfusion hvt
    · intro _; exact ⟨hs, hd⟩
  · subst he
    constructor
    · intro _
      refine ⟨t, ?_, ?_, ?_⟩ <;>
        simp [Voter.set_start_time, Voter.set_departure_time, Voter.set_vote, hle]
    · intro hvt
      simp [Voter.set_start_time, Voter.set_departure_time, Voter.set_vote] at hvt

theorem simLoop_ok_cons (th : ℚ) (vb : VotingBooths) (v : Voter) (rest : List Voter)
    (out : List Voter) (h : simLoop th vb (v :: rest) = .ok out) :
    ∃ v2 vb2 outs, simStep vb th v = .ok (v2, vb2) ∧
      simLoop th vb2 rest = .ok outs ∧ out = v2 :: outs := by
  unfold simLoop at h
  cases hs : simStep vb th v with
  | error e => simp [hs] at h
  | ok pr =>
    obtain ⟨v2, vb2⟩ := pr
    simp only [hs] at h
    cases hl : simLoop th vb2 rest with
    | error e => simp [hl] at h
    | ok outs =>
      simp only [hl, Except.ok.injEq] at h
      exact ⟨v2, vb2, outs, rfl, hl, h.symm⟩

theorem simLoop_fresh_good :
    ∀ (l : List Voter) (th : ℚ) (vb : VotingBooths) (out : List Voter),
      (∀ v ∈ l, v.start_time = none ∧ v.departure_time = none ∧ v.has_voted = false) →
      simLoop th vb l = .ok out →
      ∀ u ∈ out,
        (u.has_voted = true → ∃ s, u.start_time = some s ∧
          u.departure_time = some (s + u.voting_duration) ∧ u.arrival_time ≤ s) ∧
        (u.has_voted = false → u.start_time = none ∧ u.departure_time = none) := by
  intro l
  induction l with
  | nil =>
    intro th vb out hf h u hu
    simp only [simLoop, Except.ok.injEq] at h
    rw [← h] at hu
    simp at hu
  | cons v rest ih =>
    intro th vb out hf h u hu
    obtain ⟨v2, vb2, outs, hstep, hloop, hout⟩ := simLoop_ok_cons th vb v rest out h
    subst hout
    rcases List.mem_cons.mp hu with h0 | h1
    · subst h0
      obtain ⟨hvs, hvd, hvv⟩ := hf v (List.mem_cons_self v rest)
      exact simStep_good vb th v u vb2 hstep hvs hvd hvv
    · exact ih th vb2 outs (fun w hw => hf w (List.mem_cons_of_mem v hw)) hloop u h1

theorem simLoop_key :
    ∀ (l : List Voter) (th : ℚ) (vb : VotingBooths) (out : List Voter),
      simLoop th vb l = .ok out → out.map voterKey = l.map voterKey := by
  intro l
  induction l with
  | nil =>
    intro th vb out h
    simp only [simLoop, Except.ok.injEq] at h
    rw [← h]
  | cons v rest ih =>
    intro th vb out h
    obtain ⟨v2, vb2, outs, hstep, hloop, hout⟩ := simLoop_ok_cons th vb v rest out h
    subst hout
    simp only [List.map_cons, List.cons.injEq]
    exact ⟨simStep_key vb th v v2 vb2 hstep, ih th vb2 outs hloop⟩

theorem simStep_threshold (vb : VotingBooths) (t1 t2 : ℚ) (v v2 : Voter)
    (vb2 : VotingBooths) (hv : v.has_voted = false) (h12 : t1 ≤ t2)
    (h : simStep vb t1 v = .ok (v2, vb2)) (hvote : v2.has_voted = true) :
    simStep vb t2 v = .ok (v2, vb2) := by
  unfold simStep at h ⊢
  by_cases hb : vb.is_booth_available = true
  · simp only [hb, if_true] at h ⊢
    exact h
  · simp only [hb, if_false, Bool.false_eq_true] at h ⊢
    cases ht : vb.time_next_free with
    | error e => simp [ht] at h
    | ok m =>
      simp only [ht] at h ⊢
      by_cases ha : v.arrival_time > m
      · simp only [ha, if_true, gt_iff_lt] at h ⊢
        exact h
      · simp only [ha, if_false, gt_iff_lt] at h ⊢
        by_cases hw1 : (m - v.arrival_time > t1 ∧ v.is_impatient = true)
        · exfalso
          simp only [hw1, if_true, and_self, gt_iff_lt, Except.ok.injEq,
            Prod.mk.injEq] at h
          rcases h with ⟨h1, h2⟩
          subst h1
          rw [hv] at hvote
          exact Bool.noConfusion hvote
        · have hw2 : ¬ (m - v.arrival_time > t2 ∧ v.is_impatient = true) := by
            intro hcon
            exact hw1 ⟨lt_of_le_of_lt h12 hcon.1, hcon.2⟩
          simp only [hw1, hw2, if_false, gt_iff_lt] at h ⊢
          exact h

theorem simLoop_mono :
    ∀ (l : List Voter) (t1 t2 : ℚ) (vb : VotingBooths) (out : List Voter),
      (∀ v ∈ l, v.has_voted = false) → t1 ≤ t2 →
      simLoop t1 vb l = .ok out → allVoted out = true →
      simLoop t2 vb l = .ok out := by
  intro l
  induction l with
  | nil =>
    intro t1 t2 vb out hf h12 h hall
    simp only [simLoop] at h ⊢
    exact h
  | cons v rest ih =>
    intro t1 t2 vb out hf h12 h hall
    obtain ⟨v2, vb2, outs, hstep, hloop, hout⟩ := simLoop_ok_cons t1 vb v rest out h
    subst hout
    have hall2 : v2.has_voted = true ∧ allVoted outs = true := by
      simpa [allVoted] using hall
    have hstep2 := simStep_threshold vb t1 t2 v v2 vb2
      (hf v (List.mem_cons_self v rest)) h12 hstep hall2.1
    have hloop2 := ih t1 t2 vb2 outs
      (fun w hw => hf w (List.mem_cons_of_mem v hw)) h12 hloop hall2.2
    simp only [simLoop, hstep2, hloop2]

/-- C2: in any successful run of the simulation, every outcome voter with
`has_voted` true has both `start_time` and `departure_time` set, with
`departure_time` equal to `start_time` plus `voting_duration` and
`start_time` at or after `arrival_time`; every outcome voter with
`has_voted` false has both times unset. -/
theorem c2_departure_consistency :
    ∀ (stream : ℕ → ℚ) (cfg : Precinct) (num_booths : ℕ) (th : ℚ) (out : List Voter),
      1 ≤ num_booths →
      simulate stream cfg num_booths th = .ok out →
      ∀ u ∈ out,
        (u.has_voted = true → ∃ s, u.start_time = some s ∧
          u.departure_time = some (s + u.voting_duration) ∧ u.arrival_time ≤ s) ∧
        (u.has_voted = false → u.start_time = none ∧ u.departure_time = none) := by
  intro stream cfg nb th out hnb h u hu
  have hf : ∀ v ∈ generateVoterList cfg stream,
      v.start_time = none ∧ v.departure_time = none ∧ v.has_voted = false :=
    fun v hv => genLoop_fresh _ _ _ _ _ _ v hv
  exact simLoop_fresh_good (generateVoterList cfg stream) th ⟨nb, []⟩ out hf h u hu

/-- Witness for C2 at the concrete one-voter run. -/
theorem c2_witness :
    (vW.has_voted = true → ∃ s, vW.start_time = some s ∧
      vW.departure_time = some (s + vW.voting_duration) ∧ vW.arrival_time ≤ s) ∧
    (vW.has_voted = false → vW.start_time = none ∧ vW.departure_time = none) :=
  c2_departure_consistency sW cfgW 1 0 outW (Nat.le_refl 1)
    (by norm_num [simulate, generateVoterList, genLoop, gen_voter_parameters, simLoop,
      simStep, VotingBooths.is_booth_available, VotingBooths.enter_booth,
      VotingBooths.time_next_free, VotingBooths.exit_booth, qMinKey, popMinQ,
      Voter.set_start_time, Voter.set_departure_time, Voter.set_vote, sW, cfgW, vW, outW])
    vW (by simp [outW])

/-- C5: any successful run of the simulation returns exactly the voters
of the generated arrival sequence, with the same length, in the same
order, and with arrival time, voting duration and impatience flag
unchanged. -/
theorem c5_completeness :
    ∀ (stream : ℕ → ℚ) (cfg : Precinct) (num_booths : ℕ) (th : ℚ) (out : List Voter),
      1 ≤ num_booths →
      simulate stream cfg num_booths th = .ok out →
      out.map voterKey = (generateVoterList cfg stream).map voterKey ∧
      out.length = (generateVoterList cfg stream).length := by
  intro stream cfg nb th out hnb h
  have hm := simLoop_key (generateVoterList cfg stream) th ⟨nb, []⟩ out h
  refine ⟨hm, ?_⟩
  have := congrArg List.length hm
  simpa using this

/-- Witness for C5 at the concrete one-voter run. -/
theorem c5_witness :
    outW.map voterKey = (generateVoterList cfgW sW).map voterKey ∧
    outW.length = (generateVoterList cfgW sW).length :=
  c5_completeness sW cfgW 1 0 outW (Nat.le_refl 1)
    (by norm_num [simulate, generateVoterList, genLoop, gen_voter_parameters, simLoop,
      simStep, VotingBooths.is_booth_available, VotingBooths.enter_booth,
      VotingBooths.time_next_free, VotingBooths.exit_booth, qMinKey, popMinQ,
      Voter.set_start_time, Voter.set_departure_time, Voter.set_vote, sW, cfgW, vW, outW])

/-- C8, amended: raising the impatience threshold preserves an all-voted
outcome — if every voter voted under threshold `t1`, the run under any
`t2` at or above `t1` is identical, so every voter still votes. The
original claim, that the voted count never decreases when the threshold
increases, is false; see the counterexample. -/
theorem c8_threshold_preserves_all_voted :
    ∀ (stream : ℕ → ℚ) (cfg : Precinct) (num_booths : ℕ) (t1 t2 : ℚ) (out : List Voter),
      t1 ≤ t2 →
      simulate stream cfg num_booths t1 = .ok out →
      allVoted out = true →
      simulate stream cfg num_booths t2 = .ok out := by
  intro stream cfg nb t1 t2 out h12 h hall
  have hf : ∀ v ∈ generateVoterList cfg stream, v.has_voted = false :=
    fun v hv => (genLoop_fresh _ _ _ _ _ _ v hv).2.2
  exact simLoop_mono (generateVoterList cfg stream) t1 t2 ⟨nb, []⟩ out hf h12 h hall

/-- Counterexample to C8 as stated: with stream `s8` (arrivals 1, 2, 12,
14, durations 10, 1000, 1, 1, everyone impatient) and one booth, the run
with threshold 5 has 3 voters voting but the run with the larger
threshold 9 has only 2: voter 2 now stays, occupies the booth until time
1011, and drives voters 3 and 4 away. -/
theorem c8_counterexample :
    (5 : ℚ) ≤ 9 ∧
    countVotedOk (simulate s8 cfg8 1 5) = some 3 ∧
    countVotedOk (simulate s8 cfg8 1 9) = some 2 ∧
    ¬ (3 ≤ 2) := by
  refine ⟨by norm_num, ?_, ?_, by norm_num⟩ <;>
    norm_num [countVotedOk, countVoted, simulate, generateVoterList, genLoop,
      gen_voter_parameters, simLoop, simStep, VotingBooths.is_booth_available,
      VotingBooths.enter_booth, VotingBooths.time_next_free, VotingBooths.exit_booth,
      qMinKey, popMinQ, Voter.set_start_time, Voter.set_departure_time, Voter.set_vote,
      s8, cfg8, List.filter]

/-- Witness for the amended C8 at the concrete one-voter run. -/
theorem c8_witness : simulate sW cfgW 1 1 = .ok outW :=
  c8_threshold_preserves_all_voted sW cfgW 1 0 1 outW (by norm_num)
    (by norm_num [simulate, generateVoterList, genLoop, gen_voter_parameters, simLoop,
      simStep, VotingBooths.is_booth_available, VotingBooths.enter_booth,
      VotingBooths.time_next_free, VotingBooths.exit_booth, qMinKey, popMinQ,
      Voter.set_start_time, Voter.set_departure_time, Voter.set_vote, sW, cfgW, vW, outW])
    (by simp [allVoted, outW, vW])

/-- C9: `enter_booth` asserts the truthiness of the start time, so a
voter whose start time has been set to exactly 0 is rejected with the
start-time assertion error even though the time is assigned; hence any
simulation whose first generated voter arrives at time 0 raises that
assertion when at least one booth exists. -/
theorem c9_zero_start_time_assert :
    (∀ (vb : VotingBooths) (v : Voter),
      vb.is_booth_available = true → v.start_time = some 0 →
      vb.enter_booth v = .error .startTimeMustBeSet) ∧
    (∀ (stream : ℕ → ℚ) (cfg : Precinct) (num_booths : ℕ) (th : ℚ),
      1 ≤ num_booths → 1 ≤ cfg.num_voters → stream 0 = 0 → 0 ≤ cfg.hours_open →
      simulate stream cfg num_booths th = .error .startTimeMustBeSet) := by
  constructor
  · intro vb v hb hs
    simp [VotingBooths.enter_booth, hb, hs]
  · intro stream cfg nb th hnb hnv h0 hh
    obtain ⟨k, hk⟩ := Nat.exists_eq_succ_of_ne_zero (by omega : cfg.num_voters ≠ 0)
    have hd0 : ¬ (cfg.hours_open * 60 < 0) :=
      not_lt.mpr (mul_nonneg hh (by norm_num))
    have hob : 0 < nb := by omega
    simp [simulate, generateVoterList, hk, genLoop, gen_voter_parameters, h0, hd0,
      simLoop, simStep, VotingBooths.is_booth_available, VotingBooths.enter_booth,
      Voter.set_start_time, Voter.set_departure_time, hob]

/-- Witness for C9: admitting the concrete voter with start time 0 into
an empty one-booth pool fails, and the run whose first arrival is at
time 0 fails. -/
theorem c9_witness :
    VotingBooths.enter_booth ⟨1, []⟩ vZero = .error .startTimeMustBeSet ∧
    simulate s9 cfg9 1 0 = .error .startTimeMustBeSet :=
  ⟨c9_zero_start_time_assert.1 ⟨1, []⟩ vZero (by decide) rfl,
   c9_zero_start_time_assert.2 s9 cfg9 1 0 (Nat.le_refl 1) (Nat.le_refl 1) rfl
     (by norm_num [cfg9])⟩

/-- C10: with a zero-capacity booth pool and a non-empty arrival
sequence, the engine finds no booth available and calls
`time_next_free` on the empty pool, raising its occupancy assertion
instead of returning an outcome list. -/
theorem c10_zero_booths_assert :
    ∀ (stream : ℕ → ℚ) (cfg : Precinct) (th : ℚ),
      generateVoterList cfg stream ≠ [] →
      simulate stream cfg 0 th = .error .noBoothsInUse := by
  intro stream cfg th hne
  cases hg : generateVoterList cfg stream with
  | nil => exact absurd hg hne
  | cons v rest =>
    unfold simulate
    rw [hg]
    simp [simLoop, simStep, VotingBooths.is_booth_available,
      VotingBooths.time_next_free, qMinKey]

/-- Witness for C10 at the concrete one-voter configuration. -/
theorem c10_witness : simulate sW cfgW 0 0 = .error .noBoothsInUse :=
  c10_zero_booths_assert sW cfgW 0
    (by norm_num [generateVoterList, genLoop, gen_voter_parameters, sW, cfgW])

/-- C1: the concrete spec scenario (one booth, arrivals at 0 and 5 with
durations 10 and 4) does not produce the outcomes the spec states: the
code raises the start-time assertion on the first voter, whose start time
is set to 0, under both thresholds 100 and 3. -/
theorem c1_scenario_raises_assert :
    simulate c1s c1cfg 1 100 = .error .startTimeMustBeSet ∧
    simulate c1s c1cfg 1 3 = .error .startTimeMustBeSet := by
  constructor <;>
    norm_num [simulate, generateVoterList, genLoop, gen_voter_parameters, simLoop,
      simStep, VotingBooths.is_booth_available, VotingBooths.enter_booth,
      VotingBooths.time_next_free, VotingBooths.exit_booth, qMinKey, popMinQ,
      Voter.set_start_time, Voter.set_departure_time, Voter.set_vote, c1s, c1cfg]

/-! Search-routine lemmas -/

theorem getD_get {α : Type} (l : List α) (n : ℕ) (d : α) (h : n < l.length) :
    l.getD n d = l.get ⟨n, h⟩ := by
  induction l generalizing n with
  | nil => simp at h
  | cons a t ih =>
    cases n with
    | zero => rfl
    | succ m => exact ih m (by simpa using h)

theorem seqTrials_length {α : Type} (g : ℕ → Except SimError (Option α)) :
    ∀ (xs : List ℕ) (l : List α), seqTrials g xs = .ok (some l) →
      l.length = xs.length := by
  intro xs
  induction xs with
  | nil =>
    intro l h
    simp only [seqTrials, Except.ok.injEq, Option.some.injEq] at h
    rw [← h]
    rfl
  | cons i rest ih =>
    intro l h
    unfold seqTrials at h
    cases hg : g i with
    | error e => simp [hg] at h
    | ok o =>
      cases o with
      | none => simp [hg] at h
      | some x =>
        simp only [hg] at h
        cases hs : seqTrials g rest with
        | error e => simp [hs] at h
        | ok o2 =>
          cases o2 with
          | none => simp [hs] at h
          | some xs2 =>
            simp only [hs, Except.ok.injEq, Option.some.injEq] at h
            rw [← h]
            simp [ih xs2 hs]

/-- C7: whenever the two search routines converge with a positive trial
count `k`, the returned value is the element at index `k / 2` of a sorted
permutation of the per-trial converged values (the lower-median, not an
interpolated average), the trial list has one entry per trial, and trial
`i` draws from the stream of seed `seed + i`, each simulation run
starting from a fresh booth pool. -/
theorem c7_lower_median :
    ∀ (fuel : ℕ) (streams : ℤ → ℕ → ℚ) (seed : ℤ) (cfg : Precinct)
      (num_booths : ℕ) (th : ℚ) (k : ℕ) (m1 : ℚ) (m2 : ℕ),
      0 < k →
      findImpatienceThreshold fuel streams seed cfg num_booths k = .ok (some m1) →
      findVotingBoothsNeeded fuel streams seed cfg th k = .ok (some m2) →
      (∃ l : List ℚ,
        seqTrials (fun i => trialThreshold (streams (seed + (i : ℤ))) cfg num_booths fuel (-9))
          (List.range k) = .ok (some l) ∧
        l.length = k ∧
        ∃ ls : List ℚ, l.Perm ls ∧ ls.Sorted (· ≤ ·) ∧
          ∃ hix : k / 2 < ls.length, m1 = ls.get ⟨k / 2, hix⟩) ∧
      (∃ l : List ℕ,
        seqTrials (fun i => trialBooths (streams (seed + (i : ℤ))) cfg th fuel 0)
          (List.range k) = .ok (some l) ∧
        l.length = k ∧
        ∃ ls : List ℕ, l.Perm ls ∧ ls.Sorted (· ≤ ·) ∧
          ∃ hix : k / 2 < ls.length, m2 = ls.get ⟨k / 2, hix⟩) := by
  intro fuel streams seed cfg nb th k m1 m2 hk h1 h2
  constructor
  · unfold findImpatienceThreshold at h1
    rw [if_neg (by omega : ¬ k = 0)] at h1
    cases he : seqTrials (fun i => trialThreshold (streams (seed + (i : ℤ))) cfg nb fuel (-9))
        (List.range k) with
    | error e => simp [he] at h1
    | ok o =>
      cases o with
      | none => simp [he] at h1
      | some l =>
        simp only [he, Except.ok.injEq, Option.some.injEq] at h1
        have hlen : l.length = k := by
          simpa using seqTrials_length _ (List.range k) l he
        have hperm : l.Perm (List.insertionSort (· ≤ ·) l) :=
          (List.perm_insertionSort _ l).symm
        have hsort : (List.insertionSort (· ≤ ·) l).Sorted (· ≤ ·) :=
          List.sorted_insertionSort _ l
        have hlls : (List.insertionSort (· ≤ ·) l).length = k := by
          rw [← hperm.length_eq, hlen]
        have hix : k / 2 < (List.insertionSort (· ≤ ·) l).length := by
          rw [hlls]
          exact Nat.div_lt_self hk (by norm_num)
        refine ⟨l, rfl, hlen, List.insertionSort (· ≤ ·) l, hperm, hsort, hix, ?_⟩
        rw [← h1, hlen]
        exact getD_get _ _ _ hix
  · unfold findVotingBoothsNeeded at h2
    rw [if_neg (by omega : ¬ k = 0)] at h2
    cases he : seqTrials (fun i => trialBooths (streams (seed + (i : ℤ))) cfg th fuel 0)
        (List.range k) with
    | error e => simp [he] at h2
    | ok o =>
      cases o with
      | none => simp [he] at h2
      | some l =>
        simp only [he, Except.ok.injEq, Option.some.injEq] at h2
        have hlen : l.length = k := by
          simpa using seqTrials_length _ (List.range k) l he
        have hperm : l.Perm (List.insertionSort (· ≤ ·) l) :=
          (List.perm_insertionSort _ l).symm
        have hsort : (List.insertionSort (· ≤ ·) l).Sorted (· ≤ ·) :=
          List.sorted_insertionSort _ l
        have hlls : (List.insertionSort (· ≤ ·) l).length = k := by
          rw [← hperm.length_eq, hlen]
        have hix : k / 2 < (List.insertionSort (· ≤ ·) l).length := by
          rw [hlls]
          exact Nat.div_lt_self hk (by norm_num)
        refine ⟨l, rfl, hlen, List.insertionSort (· ≤ ·) l, hperm, hsort, hix, ?_⟩
        rw [← h2, hlen]
        exact getD_get _ _ _ hix

/-- Witness for C7: one trial with the one-voter configuration, where
both searches converge at their first candidate. -/
theorem c7_witness :
    (∃ l : List ℚ,
      seqTrials (fun i => trialThreshold (sFam (0 + (i : ℤ))) cfgW 1 1 (-9))
        (List.range 1) = .ok (some l) ∧
      l.length = 1 ∧
      ∃ ls : List ℚ, l.Perm ls ∧ ls.Sorted (· ≤ ·) ∧
        ∃ hix : 1 / 2 < ls.length, (1 : ℚ) = ls.get ⟨1 / 2, hix⟩) ∧
    (∃ l : List ℕ,
      seqTrials (fun i => trialBooths (sFam (0 + (i : ℤ))) cfgW 0 1 0)
        (List.range 1) = .ok (some l) ∧
      l.length = 1 ∧
      ∃ ls : List ℕ, l.Perm ls ∧ ls.Sorted (· ≤ ·) ∧
        ∃ hix : 1 / 2 < ls.length, (1 : ℕ) = ls.get ⟨1 / 2, hix⟩) :=
  c7_lower_median 1 sFam 0 cfgW 1 0 1 1 1 Nat.one_pos
    (by norm_num [findImpatienceThreshold, seqTrials, trialThreshold, allVoted,
      List.range_succ, simulate, generateVoterList, genLoop, gen_voter_parameters,
      simLoop, simStep, VotingBooths.is_booth_available, VotingBooths.enter_booth,
      VotingBooths.time_next_free, VotingBooths.exit_booth, qMinKey, popMinQ,
      Voter.set_start_time, Voter.set_departure_time, Voter.set_vote, sFam, sW, cfgW,
      List.all, List.insertionSort, List.orderedInsert, List.getD])
    (by norm_num [findVotingBoothsNeeded, seqTrials, trialBooths, allVoted,
      List.range_succ, simulate, generateVoterList, genLoop, gen_voter_parameters,
      simLoop, simStep, VotingBooths.is_booth_available, VotingBooths.enter_booth,
      VotingBooths.time_next_free, VotingBooths.exit_booth, qMinKey, popMinQ,
      Voter.set_start_time, Voter.set_departure_time, Voter.set_vote, sFam, sW, cfgW,
      List.all, List.insertionSort, List.orderedInsert, List.getD])
